import Mathlib

/-!
Verification of the bocho page-fanning pipeline (src/bocho.py).

The source is Python 2, so the division operator on two integers is floor
division.  Machine floats are modelled by rationals where the code only
does arithmetic and rounding, and by real numbers where it uses
trigonometric functions.  Each definition below mirrors one piece of the
source, named after the source symbol or the component of the design it
implements.
-/

namespace Bocho

/-- Mirror of the helper px in src/bocho.py: int(round(number)).
Python 2 round rounds halves away from zero. -/
def px (q : ℚ) : ℤ :=
  if 0 ≤ q then ⌊q + 1/2⌋ else -⌊-q + 1/2⌋

/-- Mirror of line 157: scale = slice_size[1] / height.  Both operands are
Python 2 ints, so this is floor division. -/
def scale (sliceH outH : ℤ) : ℤ :=
  Int.fdiv sliceH outH

/-- Mirror of line 174: x_coords[i] = i * x_spacing for i in range(n),
with x_spacing the already rescaled integer spacing. -/
def x_coords (n : ℕ) (xsp : ℤ) : List ℤ :=
  (List.range n).map fun (i : ℕ) => (i : ℤ) * xsp

/-- The y coordinate list before the negative-angle reordering,
mirror of line 175. -/
def y_coords_base (n : ℕ) (ysp : ℤ) : List ℤ :=
  (List.range n).map fun (i : ℕ) => (i : ℤ) * ysp

/-- Insertion step of a descending sort. -/
def insertDesc (a : ℤ) : List ℤ → List ℤ
  | [] => [a]
  | c :: t => if c ≤ a then a :: c :: t else c :: insertDesc a t

/-- Descending sort, mirror of y_coords.sort(reverse=True) at line 178. -/
def sortDesc : List ℤ → List ℤ
  | [] => []
  | a :: t => insertDesc a (sortDesc t)

/-- Mirror of lines 175-178: the y coordinate list actually used for
placement; for a negative angle it is sorted descending. -/
def y_coords (n : ℕ) (ysp : ℤ) (angleNeg : Bool) : List ℤ :=
  if angleNeg then sortDesc (y_coords_base n ysp) else y_coords_base n ysp

/-- Python max over a list of ints (0 for the empty list, which the code
never passes since n = len(pages) is at least 1). -/
def listMax : List ℤ → ℤ
  | [] => 0
  | a :: t => t.foldl max a

/-- Mirror of lines 180-192: the size of the canvas created at line 195.
When the angle is zero the size is (px(width * scale), px(height * scale));
otherwise it is the bounding box of the unrotated, unbordered stack. -/
def canvasSize (angleIsZero : Bool) (width height sc pw ph xsp : ℤ)
    (ycs : List ℤ) (n : ℕ) : ℤ × ℤ :=
  if angleIsZero then
    (px ((width * sc : ℤ) : ℚ), px ((height * sc : ℤ) : ℚ))
  else
    (pw + ((n : ℤ) - 1) * xsp, ph + listMax ycs)

/-- Mirror of lines 107 and 117-122: the angle in degrees is converted to
radians; when the resulting radian value is nonzero the nominal spacing
(sx, sy) is replaced by the reprojected pair, computing first the new
vertical spacing sx * cos and then the new horizontal spacing as the
absolute value of the vertical spacing divided by tan. -/
noncomputable def spacingCalculator (sx sy a : ℝ) : ℝ × ℝ :=
  let θ := a * Real.pi / 180
  if θ = 0 then (sx, sy) else (|sx * Real.cos θ / Real.tan θ|, sx * Real.cos θ)

/-- A raster image: pixel width, pixel height, and a total pixel function
(colors are opaque naturals here). -/
structure Img where
  w : ℕ
  h : ℕ
  pix : ℕ → ℕ → ℕ

/-- PIL Image.new with a constant fill color. -/
def imageNew (w h fill : ℕ) : Img :=
  ⟨w, h, fun _ _ => fill⟩

/-- PIL paste of fg onto bg at offset (a, b): inside the pasted rectangle
the foreground pixel shows, elsewhere the background pixel. -/
def pasteImg (bg fg : Img) (a b : ℕ) : Img :=
  ⟨bg.w, bg.h, fun x y =>
    if a ≤ x ∧ x < a + fg.w ∧ b ≤ y ∧ y < b + fg.h
    then fg.pix (x - a) (y - b) else bg.pix x y⟩

/-- Mirror of lines 40-50: with a zero or negative width the image is
returned unchanged, otherwise a fill-colored image two widths larger in
each dimension is created and the original pasted at (width, width). -/
def _add_border (img : Img) (fill : ℕ) (width : ℤ) : Img :=
  if width = 0 ∨ width < 0 then img
  else pasteImg
    (imageNew (img.w + width.toNat * 2) (img.h + width.toNat * 2) fill)
    img width.toNat width.toNat

/-- Mirror of lines 198-208: the paste loop runs over the reversed page
list with a one-based counter x, so step k (zero-based) pastes the page
with zero-based document index n - 1 - k, at the coordinate list index
x - 1 = k when reverse is set and n - x = n - 1 - k otherwise.  The
resulting list, in paste order, pairs each pasted page index with the
index into the coordinate lists used for it. -/
def placements (n : ℕ) (rev : Bool) : List (ℕ × ℕ) :=
  (List.range n).map fun k => (n - 1 - k, if rev then k else n - 1 - k)

/-- Mirror of lines 129-141: the per-page artifact check.  The input list
holds, per expected page PNG, whether that file already exists.  The
result is true exactly when the code raises the not-overwriting
exception. -/
def staleRaises (ex : List Bool) (reuse delete : Bool) : Bool :=
  if ex.all id && reuse then false
  else if ex.any id then (if delete then false else true)
  else false

/-- Claimed error condition, following the words of the spec: the check
fails iff at least one artifact exists and neither reuse nor deletion was
requested. -/
def staleRaisesClaimed (ex : List Bool) (reuse delete : Bool) : Bool :=
  ex.any id && !reuse && !delete

/-- Mirror of lines 235-238: the crop box computed after rotation.  The
rotated canvas size is (rotW, rotH); zoom is a Python float, modelled as a
rational, so the delta division is exact before rounding; the centering
divisions are Python 2 integer divisions of ints, hence floor divisions. -/
def cropBox (rotW rotH width height sc offX offY : ℤ) (zoom : ℚ) :
    ℤ × ℤ × ℤ × ℤ :=
  let dW := px (((width * sc : ℤ) : ℚ) / zoom)
  let dH := px (((height * sc : ℤ) : ℚ) / zoom)
  let left := Int.fdiv (rotW - dW) 2 - offX * sc
  let top := Int.fdiv (rotH - dH) 2 - offY * sc
  (left, top, left + dW, top + dH)

/-- Claimed crop box, following the words of the spec: the same deltas but
with the centering division taken exactly, over the rationals. -/
def cropBoxClaimed (rotW rotH width height sc offX offY : ℤ) (zoom : ℚ) :
    ℚ × ℚ × ℚ × ℚ :=
  let dW := px (((width * sc : ℤ) : ℚ) / zoom)
  let dH := px (((height * sc : ℤ) : ℚ) / zoom)
  let left := ((rotW : ℚ) - (dW : ℚ)) / 2 - (offX : ℚ) * (sc : ℚ)
  let top := ((rotH : ℚ) - (dH : ℚ)) / 2 - (offY : ℚ) * (sc : ℚ)
  (left, top, left + dW, top + dH)

/-- Python 2 floor division of an int by two is the rational floor. -/
theorem fdiv_two_eq_floor (a : ℤ) : Int.fdiv a 2 = ⌊((a : ℤ) : ℚ) / 2⌋ := by
  rw [Int.fdiv_eq_ediv a (by norm_num)]
  rw [show ((2 : ℚ)) = ((2 : ℕ) : ℚ) from by norm_num]
  rw [Rat.floor_intCast_div_natCast a 2]
  norm_num

/-- px is the identity on integers. -/
theorem px_intCast (m : ℤ) : px ((m : ℤ) : ℚ) = m := by
  unfold px
  by_cases h : (0 : ℚ) ≤ (m : ℚ)
  · rw [if_pos h]
    rw [show ((m : ℚ) + 1/2) = ((m : ℤ) : ℚ) + (1/2 : ℚ) by norm_num]
    rw [Int.floor_int_add]
    norm_num
  · rw [if_neg h]
    rw [show (-(m : ℚ) + 1/2) = (((-m) : ℤ) : ℚ) + (1/2 : ℚ) by push_cast; ring]
    rw [Int.floor_int_add]
    norm_num

section MaxLemmas

theorem foldl_max_le (c : ℤ) :
    ∀ (l : List ℤ) (b : ℤ), l.foldl max b ≤ c ↔ b ≤ c ∧ ∀ x ∈ l, x ≤ c := by
  intro l
  induction l with
  | nil => intro b; simp
  | cons a t ih =>
      intro b
      simp only [List.foldl_cons, ih (max b a), max_le_iff, List.mem_cons]
      constructor
      · rintro ⟨⟨hb, ha⟩, ht⟩
        exact ⟨hb, fun x hx => hx.elim (fun e => e ▸ ha) (ht x)⟩
      · rintro ⟨hb, h⟩
        exact ⟨⟨hb, h a (Or.inl rfl)⟩, fun x hx => h x (Or.inr hx)⟩

theorem listMax_le_iff (a : ℤ) (t : List ℤ) (c : ℤ) :
    listMax (a :: t) ≤ c ↔ ∀ x ∈ a :: t, x ≤ c := by
  simp only [listMax, foldl_max_le, List.mem_cons]
  constructor
  · rintro ⟨ha, ht⟩ x hx
    exact hx.elim (fun e => e ▸ ha) (ht x)
  · intro h
    exact ⟨h a (Or.inl rfl), fun x hx => h x (Or.inr hx)⟩

theorem le_listMax (a : ℤ) (t : List ℤ) : ∀ x ∈ a :: t, x ≤ listMax (a :: t) :=
  (listMax_le_iff a t (listMax (a :: t))).mp le_rfl

theorem mem_insertDesc (a x : ℤ) :
    ∀ (l : List ℤ), x ∈ insertDesc a l ↔ x = a ∨ x ∈ l := by
  intro l
  induction l with
  | nil => simp [insertDesc]
  | cons c t ih =>
      by_cases h : c ≤ a
      · simp [insertDesc, h]
      · simp only [insertDesc, if_neg h, List.mem_cons, ih]
        tauto

theorem mem_sortDesc (x : ℤ) : ∀ (l : List ℤ), x ∈ sortDesc l ↔ x ∈ l := by
  intro l
  induction l with
  | nil => simp [sortDesc]
  | cons a t ih => simp [sortDesc, mem_insertDesc, ih]

theorem insertDesc_ne_nil (a : ℤ) (l : List ℤ) : insertDesc a l ≠ [] := by
  cases l with
  | nil => simp [insertDesc]
  | cons c t =>
      by_cases h : c ≤ a <;> simp [insertDesc, h]

theorem listMax_sortDesc_cons (a : ℤ) (t : List ℤ) :
    listMax (sortDesc (a :: t)) = listMax (a :: t) := by
  have hne : sortDesc (a :: t) ≠ [] := by
    simp only [sortDesc]
    exact insertDesc_ne_nil a (sortDesc t)
  obtain ⟨b, s, hbs⟩ := List.exists_cons_of_ne_nil hne
  apply le_antisymm
  · rw [hbs, listMax_le_iff]
    intro x hx
    have : x ∈ a :: t := by
      rw [← mem_sortDesc, hbs]; exact hx
    exact le_listMax a t x this
  · rw [listMax_le_iff]
    intro x hx
    have : x ∈ sortDesc (a :: t) := by rw [mem_sortDesc]; exact hx
    rw [hbs] at this
    exact hbs ▸ le_listMax b s x this

theorem listMax_sortDesc (l : List ℤ) (h : l ≠ []) :
    listMax (sortDesc l) = listMax l := by
  obtain ⟨a, t, rfl⟩ := List.exists_cons_of_ne_nil h
  exact listMax_sortDesc_cons a t

end MaxLemmas

/-- Claim C1: for every nominal spacing and every angle between -90 and 90
degrees, the effective spacing is unchanged at angle zero, and otherwise
the new vertical spacing is sx times the cosine of the angle in radians
and the new horizontal spacing is the absolute value of the vertical
spacing divided by the tangent of the angle in radians. -/
theorem spacingCalculator_claim (sx sy a : ℝ) (_h1 : -90 ≤ a) (_h2 : a ≤ 90) :
    (a = 0 → spacingCalculator sx sy a = (sx, sy)) ∧
    (a ≠ 0 →
      (spacingCalculator sx sy a).2 = sx * Real.cos (a * Real.pi / 180) ∧
      (spacingCalculator sx sy a).1 =
        |(spacingCalculator sx sy a).2 / Real.tan (a * Real.pi / 180)|) := by
  have key : a * Real.pi / 180 = 0 ↔ a = 0 := by
    rw [div_eq_zero_iff, mul_eq_zero]
    simp [Real.pi_ne_zero]
  constructor
  · intro ha
    simp only [spacingCalculator]
    rw [if_pos (key.mpr ha)]
  · intro ha
    simp only [spacingCalculator]
    rw [if_neg fun h => ha (key.mp h)]
    exact ⟨rfl, rfl⟩

/-- Witness for claim C1 at sx = 107, sy = 0, angle = 45 degrees. -/
theorem spacingCalculator_claim_w :
    (spacingCalculator 107 0 45).2 = 107 * Real.cos (45 * Real.pi / 180) ∧
    (spacingCalculator 107 0 45).1 =
      |(spacingCalculator 107 0 45).2 / Real.tan (45 * Real.pi / 180)| :=
  (spacingCalculator_claim 107 0 45 (by norm_num) (by norm_num)).2 (by norm_num)

/-- Counterexample to claim C2: with a negative angle the y coordinate
list is sorted descending before placement, so with two pages and a
rescaled vertical spacing of one the placement coordinates are [1, 0],
not the claimed [round(0 * 1), round(1 * 1)] = [0, 1]. -/
theorem y_coords_negAngle_cex :
    y_coords 2 1 true = [1, 0] ∧
    y_coords 2 1 true ≠ [px ((0 : ℚ) * 1), px ((1 : ℚ) * 1)] := by
  have h : y_coords 2 1 true = [1, 0] := by decide
  have h0 : px ((0 : ℚ) * 1) = 0 := by norm_num [px]
  have h1 : px ((1 : ℚ) * 1) = 1 := by norm_num [px]
  refine ⟨h, ?_⟩
  rw [h, h0, h1]
  decide

/-- Claim C2 amended: when the angle is not negative, the i-th coordinate
is (round(i * xSpacing), round(i * ySpacing)) over the rescaled integer
spacings; for a negative angle the y list is additionally sorted
descending.  In particular, for nominal spacing (sx, 0) and angle zero
the i-th coordinate is exactly (round(i * sx * scale), 0). -/
theorem coords_claim_amended (n : ℕ) (xsp ysp sx sc : ℤ) (i : ℕ)
    (hi : i < n) :
    (x_coords n xsp)[i]? = some (px ((i : ℚ) * (xsp : ℚ))) ∧
    (y_coords n ysp false)[i]? = some (px ((i : ℚ) * (ysp : ℚ))) ∧
    (x_coords n (px ((sx : ℚ) * (sc : ℚ))))[i]?
      = some (px ((i : ℚ) * (sx : ℚ) * (sc : ℚ))) ∧
    (y_coords n 0 false)[i]? = some 0 := by
  have hget : ∀ (s : ℤ), (x_coords n s)[i]? = some ((i : ℤ) * s) := by
    intro s
    rw [x_coords, List.getElem?_map, List.getElem?_range hi]
    rfl
  have hgety : ∀ (s : ℤ), (y_coords n s false)[i]? = some ((i : ℤ) * s) := by
    intro s
    show (y_coords_base n s)[i]? = _
    rw [y_coords_base, List.getElem?_map, List.getElem?_range hi]
    rfl
  have c1 : ((i : ℚ) * (xsp : ℚ)) = (((i : ℤ) * xsp : ℤ) : ℚ) := by push_cast; ring
  have c2 : ((i : ℚ) * (ysp : ℚ)) = (((i : ℤ) * ysp : ℤ) : ℚ) := by push_cast; ring
  have c3 : ((sx : ℚ) * (sc : ℚ)) = ((sx * sc : ℤ) : ℚ) := by push_cast; ring
  have c4 : ((i : ℚ) * (sx : ℚ) * (sc : ℚ)) = (((i : ℤ) * (sx * sc) : ℤ) : ℚ) := by
    push_cast; ring
  refine ⟨?_, ?_, ?_, ?_⟩
  · rw [c1, px_intCast]; exact hget xsp
  · rw [c2, px_intCast]; exact hgety ysp
  · rw [c3, c4, px_intCast, px_intCast]; exact hget (sx * sc)
  · have := hgety 0; simpa using this

/-- Witness for the amended claim C2 at n = 3, i = 2, spacings 5 and 3,
nominal spacing 107, scale 12. -/
theorem coords_claim_amended_w :
    2 < 3 ∧
    ((x_coords 3 5)[2]? = some (px ((2 : ℚ) * (5 : ℚ))) ∧
     (y_coords 3 3 false)[2]? = some (px ((2 : ℚ) * (3 : ℚ))) ∧
     (x_coords 3 (px ((107 : ℚ) * (12 : ℚ))))[2]?
       = some (px ((2 : ℚ) * (107 : ℚ) * (12 : ℚ))) ∧
     (y_coords 3 0 false)[2]? = some 0) :=
  ⟨by decide, coords_claim_amended 3 5 3 107 12 2 (by decide)⟩

/-- Claim C3: at angle zero the canvas is (round(width * scale),
round(height * scale)); at a nonzero angle it is the bounding box of the
unrotated stack, pageWidth + (n - 1) * xSpacing by pageHeight plus the
maximum of the y coordinates, for either sign of the angle. -/
theorem canvasSize_claim (angleNeg : Bool) (width height sc pw ph xsp ysp : ℤ)
    (n : ℕ) (hn : 1 ≤ n) :
    canvasSize true width height sc pw ph xsp (y_coords n ysp angleNeg) n
      = (width * sc, height * sc) ∧
    canvasSize false width height sc pw ph xsp (y_coords n ysp angleNeg) n
      = (pw + ((n : ℤ) - 1) * xsp, ph + listMax (y_coords_base n ysp)) := by
  constructor
  · show (px ((width * sc : ℤ) : ℚ), px ((height * sc : ℤ) : ℚ))
        = (width * sc, height * sc)
    rw [px_intCast, px_intCast]
  · show (pw + ((n : ℤ) - 1) * xsp, ph + listMax (y_coords n ysp angleNeg)) = _
    cases angleNeg with
    | false => rfl
    | true =>
        have hne : y_coords_base n ysp ≠ [] := by
          simp only [y_coords_base, ne_eq, List.map_eq_nil_iff, List.range_eq_nil]
          omega
        rw [show y_coords n ysp true = sortDesc (y_coords_base n ysp) from rfl,
          listMax_sortDesc _ hne]

/-- Witness for claim C3 at two pages with spacing 1284, vertical step 5,
negative-angle ordering. -/
theorem canvasSize_claim_w :
    1 ≤ 2 ∧
    (canvasSize true 630 290 12 2480 3507 1284 (y_coords 2 5 true) 2
       = (630 * 12, 290 * 12) ∧
     canvasSize false 630 290 12 2480 3507 1284 (y_coords 2 5 true) 2
       = (2480 + ((2 : ℤ) - 1) * 1284, 3507 + listMax (y_coords_base 2 5))) :=
  ⟨by decide, canvasSize_claim true 630 290 12 2480 3507 1284 5 2 (by decide)⟩

/-- Counterexample to claim C4: the centering division of the crop box is
Python 2 integer floor division, not exact division.  With a rotated
canvas 5 wide, output width 2, scale 1, zoom 1 and no offset, the code
computes left = (5 - 2) fdiv 2 = 1 while the claimed exact formula gives
(5 - 2) / 2 = 3 / 2. -/
theorem cropBox_center_cex :
    (cropBox 5 7 2 3 1 0 0 1).1 = 1 ∧
    (cropBoxClaimed 5 7 2 3 1 0 0 1).1 = 3 / 2 ∧
    ((1 : ℚ)) ≠ 3 / 2 := by
  refine ⟨?_, ?_, by norm_num⟩
  · show Int.fdiv (5 - px (((2 * 1 : ℤ) : ℚ) / 1)) 2 - 0 * 1 = 1
    norm_num [px, Int.fdiv]
  · show ((5 : ℚ) - (px (((2 * 1 : ℤ) : ℚ) / 1) : ℚ)) / 2 - (0 : ℚ) * 1 = 3 / 2
    norm_num [px]

/-- Claim C4 amended: the crop box is (left, top, left + deltaW,
top + deltaH) with deltaW = round(width * scale / zoom) and deltaH =
round(height * scale / zoom), but the centering coordinates use floor
division: left = floor((rotatedWidth - deltaW) / 2) - offsetX * scale and
top = floor((rotatedHeight - deltaH) / 2) - offsetY * scale, so for an odd
difference the box sits half a pixel off exact center. -/
theorem cropBox_claim_amended (rotW rotH width height sc offX offY : ℤ)
    (zoom : ℚ) :
    (cropBox rotW rotH width height sc offX offY zoom).1
      = ⌊((rotW - px (((width * sc : ℤ) : ℚ) / zoom) : ℤ) : ℚ) / 2⌋
        - offX * sc ∧
    (cropBox rotW rotH width height sc offX offY zoom).2.1
      = ⌊((rotH - px (((height * sc : ℤ) : ℚ) / zoom) : ℤ) : ℚ) / 2⌋
        - offY * sc ∧
    (cropBox rotW rotH width height sc offX offY zoom).2.2.1
      = (cropBox rotW rotH width height sc offX offY zoom).1
        + px (((width * sc : ℤ) : ℚ) / zoom) ∧
    (cropBox rotW rotH width height sc offX offY zoom).2.2.2
      = (cropBox rotW rotH width height sc offX offY zoom).2.1
        + px (((height * sc : ℤ) : ℚ) / zoom) := by
  refine ⟨?_, ?_, rfl, rfl⟩
  · show Int.fdiv (rotW - px (((width * sc : ℤ) : ℚ) / zoom)) 2 - offX * sc = _
    rw [fdiv_two_eq_floor]
  · show Int.fdiv (rotH - px (((height * sc : ℤ) : ℚ) / zoom)) 2 - offY * sc = _
    rw [fdiv_two_eq_floor]

/-- Counterexample to claim C5: the paste loop counts from the back of the
document, not the front.  With two pages and reverse off, the placements
in paste order are page 1 at coordinate index 1 then page 0 at coordinate
index 0; the front page (position 1 from the front, page index 0) is
placed at coordinate index 0, not at the claimed index n - 1 = 1. -/
theorem placements_front_cex :
    placements 2 false = [(1, 1), (0, 0)] ∧
    ((0, 1) : ℕ × ℕ) ∉ placements 2 false := by
  refine ⟨by decide, by decide⟩

/-- Claim C5 amended: pages are pasted back to front (paste step k handles
the page with zero-based document index n - 1 - k, so the last page goes
down first and the first page last, overwriting at overlaps), and the page
at position x, 1-indexed from the BACK of the document, is pasted at
coordinates[n - x] when reverse is off and coordinates[x - 1] when it is
on; equivalently the page at position p from the front gets
coordinates[p - 1], respectively coordinates[n - p]. -/
theorem placements_claim_amended (n : ℕ) (rev : Bool) (x : ℕ)
    (h1 : 1 ≤ x) (h2 : x ≤ n) :
    (placements n rev)[x - 1]?
      = some (n - x, if rev then x - 1 else n - x) := by
  have hx : x - 1 < n := by omega
  have e : n - 1 - (x - 1) = n - x := by omega
  rw [placements, List.getElem?_map, List.getElem?_range hx]
  simp [e]

/-- Witness for the amended claim C5 at three pages, reverse off, back
position 2. -/
theorem placements_claim_amended_w :
    1 ≤ 2 ∧ 2 ≤ 3 ∧
    (placements 3 false)[2 - 1]?
      = some (3 - 2, if false then 2 - 1 else 3 - 2) :=
  ⟨by decide, by decide, placements_claim_amended 3 false 2 (by decide) (by decide)⟩

/-- Claim C6 fails on the code: with a single 100 by 100 page, border
width 2 and a nonzero angle, the canvas is sized to the unbordered
bounding box (100, 100), while the bordered page pasted at (0, 0) is 104
by 104, so its right and bottom border pixels fall outside the canvas. -/
theorem canvas_border_overflow :
    canvasSize false 630 290 12 100 100 1284 (y_coords 1 0 false) 1
      = (100, 100) ∧
    (_add_border (imageNew 100 100 0) 0 2).w = 104 ∧
    (_add_border (imageNew 100 100 0) 0 2).h = 104 ∧
    ¬((104 : ℤ) ≤ 100) := by
  exact ⟨by decide, rfl, rfl, by decide⟩

/-- Claim C7: the border decorator is the identity for a zero or negative
width; for a positive width w it yields an image 2w larger in each
dimension, equal to the input on the region of the original size at
offset (w, w), and equal to the fill color outside that region. -/
theorem add_border_claim (img : Img) (fill : ℕ) (width : ℤ) :
    (width ≤ 0 → _add_border img fill width = img) ∧
    (0 < width →
      ((_add_border img fill width).w : ℤ) = img.w + 2 * width ∧
      ((_add_border img fill width).h : ℤ) = img.h + 2 * width ∧
      (∀ x y, x < img.w → y < img.h →
        (_add_border img fill width).pix (x + width.toNat) (y + width.toNat)
          = img.pix x y) ∧
      (∀ x y,
        (x < width.toNat ∨ width.toNat + img.w ≤ x ∨
          y < width.toNat ∨ width.toNat + img.h ≤ y) →
        (_add_border img fill width).pix x y = fill)) := by
  constructor
  · intro h
    rw [_add_border, if_pos (by omega)]
  · intro h
    rw [_add_border, if_neg (by omega)]
    refine ⟨by push_cast [pasteImg, imageNew]; omega,
            by push_cast [pasteImg, imageNew]; omega, ?_, ?_⟩
    · intro x y hx hy
      show (if width.toNat ≤ x + width.toNat ∧
            x + width.toNat < width.toNat + img.w ∧
            width.toNat ≤ y + width.toNat ∧
            y + width.toNat < width.toNat + img.h
          then img.pix (x + width.toNat - width.toNat)
            (y + width.toNat - width.toNat)
          else (imageNew (img.w + width.toNat * 2) (img.h + width.toNat * 2)
            fill).pix (x + width.toNat) (y + width.toNat)) = img.pix x y
      rw [if_pos (by omega), Nat.add_sub_cancel, Nat.add_sub_cancel]
    · intro x y hxy
      show (if width.toNat ≤ x ∧ x < width.toNat + img.w ∧
            width.toNat ≤ y ∧ y < width.toNat + img.h
          then img.pix (x - width.toNat) (y - width.toNat)
          else (imageNew (img.w + width.toNat * 2) (img.h + width.toNat * 2)
            fill).pix x y) = fill
      rw [if_neg (by omega)]
      rfl

/-- Witness for claim C7 on a concrete 2 by 2 image with fill 7 and border
width 1, plus the no-op branch at width 0. -/
theorem add_border_claim_w :
    (_add_border (imageNew 2 2 5) 7 0 = imageNew 2 2 5) ∧
    ((_add_border (imageNew 2 2 5) 7 1).w : ℤ) = (imageNew 2 2 5).w + 2 * 1 ∧
    (_add_border (imageNew 2 2 5) 7 1).pix (0 + (1 : ℤ).toNat)
      (1 + (1 : ℤ).toNat) = (imageNew 2 2 5).pix 0 1 ∧
    (_add_border (imageNew 2 2 5) 7 1).pix 0 0 = 7 := by
  have h0 := (add_border_claim (imageNew 2 2 5) 7 0).1 (by norm_num)
  have h := (add_border_claim (imageNew 2 2 5) 7 1).2 (by norm_num)
  exact ⟨h0, h.1, h.2.2.1 0 1 (by decide) (by decide),
    h.2.2.2 0 0 (Or.inl (by decide))⟩

/-- Counterexample to claim C9: with two expected page PNGs of which only
the first exists, reuse requested and deletion not requested, the code
still raises the not-overwriting exception although the claim says that a
requested reuse avoids the error. -/
theorem staleRaises_reuse_partial_cex :
    staleRaises [true, false] true false = true ∧
    staleRaisesClaimed [true, false] true false = false := by
  exact ⟨rfl, rfl⟩

/-- Claim C9 amended: the artifact check raises exactly when at least one
artifact exists, deletion was not requested, and it is not the case that
reuse was requested with every artifact present. -/
theorem staleRaises_claim_amended (ex : List Bool) (reuse delete : Bool) :
    staleRaises ex reuse delete = true ↔
      (ex.any id = true ∧ delete = false ∧
        ¬(reuse = true ∧ ex.all id = true)) := by
  unfold staleRaises
  cases hA : ex.all id <;> cases hB : ex.any id <;>
    cases reuse <;> cases delete <;> simp [hA, hB]

/-- Claim C10 fails on the code: the scale factor is computed with Python
2 integer division, hence it is the floor of the ratio, not the exact
ratio, and it is zero, not positive, whenever the source page height is
smaller than the requested output height.  At source height 145 and
output height 290 the code yields 0 while the claimed exact ratio is
1 / 2. -/
theorem scale_floor_bug :
    scale 145 290 = 0 ∧
    ¬(0 < scale 145 290) ∧
    ((scale 145 290 : ℤ) : ℚ) ≠ (145 : ℚ) / 290 ∧
    (0 : ℚ) < (145 : ℚ) / 290 := by
  have h : scale 145 290 = 0 := by decide
  refine ⟨h, by rw [h]; decide, ?_, by norm_num⟩
  rw [h]
  norm_num

end Bocho
